import Mathlib

/-!
Verification of the Edit Decision Compiler (`VideoEngine.calculateCuts`) and the
Preview Generator (`VideoEngine.generateSourcePreview`).

The embedding follows the TypeScript source: subtitle times are rationals
(seconds), frame positions are integers, `Math.floor(t * fps)` is the rational
floor, the `Map` built from `fullSrt` resolves duplicate ids to the last entry,
and `Array.prototype.find` is `List.find?`.  `calculateCuts` is the three-pass
version: materialize raw segments with padding and clamping, merge adjacent or
overlapping segments from the same file, then accumulate timeline positions.
-/

attribute [local semireducible] Rat.mul Rat.add Rat.sub Rat.inv

structure SrtEntry where
  id : Int
  startTime : Rat
  endTime : Rat
  text : String
  deriving DecidableEq, Inhabited

structure ClipItem where
  id : String
  name : String
  start : Int
  «end» : Int
  «in» : Int
  out : Int
  fileId : String
  filePath : String
  masterClipId : String
  trackIndex : Int
  deriving DecidableEq, Inhabited

structure SequenceData where
  fps : Rat
  width : Int
  height : Int
  clips : List ClipItem
  deriving DecidableEq, Inhabited

structure EditDecision where
  sequenceIndex : Int
  srtId : Int
  clipName : String
  text : String
  timelineIn : Int
  timelineOut : Int
  sourceIn : Int
  sourceOut : Int
  fileId : String
  filePath : Option String
  duration : Int
  masterClipId : Option String
  trackIndex : Int
  deriving DecidableEq, Inhabited

/-- `Math.floor(seconds * fps)`: conversion from subtitle seconds to frames. -/
def timeToFrame (seconds fps : Rat) : Int :=
  (seconds * fps).floor

/-- Lookup in `new Map(fullSrt.map(s => [s.id, s]))`: the last entry with a
given id wins, as `Map.set` overwrites earlier bindings. -/
def srtLookup (fullSrt : List SrtEntry) (id : Int) : Option SrtEntry :=
  fullSrt.reverse.find? (fun s => s.id == id)

/-- `sequenceData.clips.find(c => c.start <= frame && c.end > frame)`: the first
clip in array order whose timeline span contains the frame.  Both engine
functions use this same predicate. -/
def findClip (clips : List ClipItem) (frame : Int) : Option ClipItem :=
  clips.find? (fun c => decide (c.start ≤ frame ∧ frame < c.«end»))

def paddingHead : Int := 5

def paddingTail : Int := 5

def smallGapTolerance : Int := 2

/-- The record produced by pass 1 of `calculateCuts`. -/
structure RawSegment where
  srtId : Int
  text : String
  fileId : String
  filePath : String
  clipName : String
  sourceIn : Int
  sourceOut : Int
  masterClipId : String
  trackIndex : Int
  deriving DecidableEq, Inhabited

/-- `[...selectedSrtIds].sort((a, b) => a - b)`: ascending numeric sort. -/
def sortIds (selectedSrtIds : List Int) : List Int :=
  List.insertionSort (fun a b => a ≤ b) selectedSrtIds

/-- One iteration of pass 1 of `calculateCuts`: lookup, frame conversion,
degenerate-duration drop, clip lookup, head padding clamped at 0, duration
clamped to the frames remaining in the clip plus the head padding. -/
def materializeSegment (sequenceData : SequenceData) (fullSrt : List SrtEntry)
    (id : Int) : Option RawSegment :=
  match srtLookup fullSrt id with
  | none => none
  | some srt =>
    let srtStartFrame := timeToFrame srt.startTime sequenceData.fps
    let srtEndFrame := timeToFrame srt.endTime sequenceData.fps
    let rawDuration := srtEndFrame - srtStartFrame
    if rawDuration ≤ 0 then none else
    match findClip sequenceData.clips srtStartFrame with
    | none => none
    | some clip =>
      let offsetFromClipStart := srtStartFrame - clip.start
      let preClampIn := clip.«in» + offsetFromClipStart - paddingHead
      let newSourceIn := if preClampIn < 0 then 0 else preClampIn
      let framesRemainingInClip := clip.«end» - srtStartFrame
      let desiredDuration := rawDuration + paddingHead + paddingTail
      let finalDuration := min desiredDuration (framesRemainingInClip + paddingHead)
      if finalDuration < 1 then none else
      some {
        srtId := id
        text := srt.text
        fileId := clip.fileId
        filePath := clip.filePath
        clipName := clip.name
        sourceIn := newSourceIn
        sourceOut := newSourceIn + finalDuration
        masterClipId := clip.masterClipId
        trackIndex := clip.trackIndex }

/-- Pass 1 of `calculateCuts`: the raw segment candidates, in sorted-id order
(`continue` on a failed lookup, degenerate duration, unmapped frame, or
clamped-away duration). -/
def rawSegmentsOf (selectedSrtIds : List Int) (fullSrt : List SrtEntry)
    (sequenceData : SequenceData) : List RawSegment :=
  (sortIds selectedSrtIds).filterMap (materializeSegment sequenceData fullSrt)

/-- The pass-2 fuse test: same source file and
`next.sourceIn <= current.sourceOut + 2`. -/
def fusable (current next : RawSegment) : Bool :=
  current.fileId == next.fileId &&
    decide (next.sourceIn ≤ current.sourceOut + smallGapTolerance)

/-- The pass-2 fuse action: extend the out point with `Math.max` and append the
text, space-joined. -/
def fuse (current next : RawSegment) : RawSegment :=
  { current with
    sourceOut := max current.sourceOut next.sourceOut
    text := current.text ++ " " ++ next.text }

/-- The pass-2 loop of `calculateCuts`, holding the running `current`. -/
def mergeGo (current : RawSegment) : List RawSegment → List RawSegment
  | [] => [current]
  | next :: rest =>
    if fusable current next then mergeGo (fuse current next) rest
    else current :: mergeGo next rest

/-- Pass 2 of `calculateCuts`: merge overlapping or adjacent segments. -/
def mergeSegments : List RawSegment → List RawSegment
  | [] => []
  | first :: rest => mergeGo first rest

/-- Pass 3 of `calculateCuts`: assign timeline positions from the running
accumulator and 1-based sequence indices. -/
def accumulate (acc : Int) (index : Nat) : List RawSegment → List EditDecision
  | [] => []
  | seg :: rest =>
    { sequenceIndex := (index : Int) + 1
      srtId := seg.srtId
      clipName := seg.clipName
      text := seg.text
      timelineIn := acc
      timelineOut := acc + (seg.sourceOut - seg.sourceIn)
      sourceIn := seg.sourceIn
      sourceOut := seg.sourceOut
      fileId := seg.fileId
      filePath := some seg.filePath
      duration := seg.sourceOut - seg.sourceIn
      masterClipId := some seg.masterClipId
      trackIndex := seg.trackIndex } ::
    accumulate (acc + (seg.sourceOut - seg.sourceIn)) (index + 1) rest

/-- `VideoEngine.calculateCuts`: sort the selection, materialize, merge, and
accumulate. -/
def calculateCuts (selectedSrtIds : List Int) (fullSrt : List SrtEntry)
    (sequenceData : SequenceData) : List EditDecision :=
  accumulate 0 0 (mergeSegments (rawSegmentsOf selectedSrtIds fullSrt sequenceData))

/-- One scenario-A row of `generateSourcePreview`: a mapped row when a clip
contains the subtitle's start frame, otherwise the `[GAP / NO VIDEO]` sentinel
with `sourceIn = sourceOut = -1` and track 0. -/
def previewRow (fps : Rat) (clips : List ClipItem) (index : Nat) (srt : SrtEntry) :
    EditDecision :=
  let srtStartFrame := timeToFrame srt.startTime fps
  let srtEndFrame := timeToFrame srt.endTime fps
  let duration := srtEndFrame - srtStartFrame
  match findClip clips srtStartFrame with
  | some clip =>
    let sourceIn := clip.«in» + (srtStartFrame - clip.start)
    { sequenceIndex := (index : Int) + 1
      srtId := srt.id
      clipName := clip.name
      text := srt.text
      timelineIn := srtStartFrame
      timelineOut := srtEndFrame
      sourceIn := sourceIn
      sourceOut := sourceIn + duration
      fileId := clip.fileId
      filePath := some clip.filePath
      duration := duration
      masterClipId := some clip.masterClipId
      trackIndex := clip.trackIndex }
  | none =>
    { sequenceIndex := (index : Int) + 1
      srtId := srt.id
      clipName := "[GAP / NO VIDEO]"
      text := srt.text
      timelineIn := srtStartFrame
      timelineOut := srtEndFrame
      sourceIn := -1
      sourceOut := -1
      fileId := ""
      filePath := none
      duration := duration
      masterClipId := none
      trackIndex := 0 }

/-- Scenario A of `generateSourcePreview`: `srtData.forEach((srt, index) => ...)`. -/
def previewRows (fps : Rat) (clips : List ClipItem) (index : Nat) :
    List SrtEntry → List EditDecision
  | [] => []
  | srt :: rest => previewRow fps clips index srt :: previewRows fps clips (index + 1) rest

/-- One scenario-B row of `generateSourcePreview`: a physical clip listed with
its own in/out and start/end. -/
def clipRow (index : Nat) (clip : ClipItem) : EditDecision :=
  { sequenceIndex := (index : Int) + 1
    srtId := 0
    clipName := clip.name
    text := "[Video Clip]"
    timelineIn := clip.start
    timelineOut := clip.«end»
    sourceIn := clip.«in»
    sourceOut := clip.out
    fileId := clip.fileId
    filePath := some clip.filePath
    duration := clip.«end» - clip.start
    masterClipId := some clip.masterClipId
    trackIndex := clip.trackIndex }

/-- Scenario B of `generateSourcePreview`: `sortedClips.forEach((clip, index) => ...)`. -/
def clipRows (index : Nat) : List ClipItem → List EditDecision
  | [] => []
  | clip :: rest => clipRow index clip :: clipRows (index + 1) rest

/-- `VideoEngine.generateSourcePreview`: one row per subtitle when any exist,
otherwise the physical clips sorted by timeline start. -/
def generateSourcePreview (sequenceData : SequenceData) (srtData : List SrtEntry) :
    List EditDecision :=
  if srtData.isEmpty then
    clipRows 0 (List.insertionSort (fun a b => a.start ≤ b.start) sequenceData.clips)
  else
    previewRows sequenceData.fps sequenceData.clips 0 srtData

/-- The Adjacency Merger loop written from the specification's words: maintain a
running current; for each next segment, if `next.fileId == current.fileId` and
`next.sourceIn <= current.sourceOut + smallGapTolerance`, fuse by extending
`current.sourceOut` to the max and appending `next.text` space-joined;
otherwise flush `current` to the output list and make `next` the new current;
flush the final current at the end. -/
def mergerLoopSpec (flushed : List RawSegment) (current : RawSegment) :
    List RawSegment → List RawSegment
  | [] => flushed ++ [current]
  | next :: rest =>
    if next.fileId = current.fileId ∧
        next.sourceIn ≤ current.sourceOut + smallGapTolerance then
      mergerLoopSpec flushed
        { current with
          sourceOut := max current.sourceOut next.sourceOut
          text := current.text ++ " " ++ next.text } rest
    else
      mergerLoopSpec (flushed ++ [current]) next rest

/-- The Adjacency Merger as described by the specification. -/
def adjacencyMergerSpec : List RawSegment → List RawSegment
  | [] => []
  | first :: rest => mergerLoopSpec [] first rest

/-- Pass 2 instrumented to record, next to every output segment, the ids of the
raw segments that were fused into it, in fusion order. -/
def mergeGoIds (current : RawSegment) (ids : List Int) :
    List RawSegment → List (RawSegment × List Int)
  | [] => [(current, ids)]
  | next :: rest =>
    if fusable current next then mergeGoIds (fuse current next) (ids ++ [next.srtId]) rest
    else (current, ids) :: mergeGoIds next [next.srtId] rest

/-- The merged segments of pass 2 together with the ids fused into each. -/
def mergeRuns : List RawSegment → List (RawSegment × List Int)
  | [] => []
  | first :: rest => mergeGoIds first [first.srtId] rest

/-- The bound the specification names for a cut: the `out` point of the clip
that owns the start frame of the cut's originating segment. -/
def owningClipOut (fullSrt : List SrtEntry) (sequenceData : SequenceData)
    (cut : EditDecision) : Option Int :=
  match srtLookup fullSrt cut.srtId with
  | none => none
  | some s =>
    (findClip sequenceData.clips (timeToFrame s.startTime sequenceData.fps)).map
      (fun c => c.out)

/-- Whether a cut's `sourceOut` stays within `owningClipOut`, vacuously true
when the owning clip cannot be resolved. -/
def withinOwnerBound (fullSrt : List SrtEntry) (sequenceData : SequenceData)
    (cut : EditDecision) : Bool :=
  match owningClipOut fullSrt sequenceData cut with
  | none => true
  | some b => decide (cut.sourceOut ≤ b)

def exClip : ClipItem :=
  { id := "c1", name := "A", start := 0, «end» := 100, «in» := 0, out := 100,
    fileId := "f1", filePath := "/a.mov", masterClipId := "m1", trackIndex := 1 }

def exSrt1 : SrtEntry := { id := 1, startTime := 0, endTime := 4, text := "hello" }

def exSeq : SequenceData := { fps := 25, width := 1920, height := 1080, clips := [exClip] }

theorem fusable_iff (c n : RawSegment) :
    fusable c n = true ↔
      n.fileId = c.fileId ∧ n.sourceIn ≤ c.sourceOut + smallGapTolerance := by
  unfold fusable
  rw [Bool.and_eq_true, beq_iff_eq, decide_eq_true_iff]
  exact ⟨fun ⟨h1, h2⟩ => ⟨h1.symm, h2⟩, fun ⟨h1, h2⟩ => ⟨h1.symm, h2⟩⟩

theorem mergerLoopSpec_eq (l : List RawSegment) :
    ∀ (flushed : List RawSegment) (c : RawSegment),
      mergerLoopSpec flushed c l = flushed ++ mergeGo c l := by
  induction l with
  | nil => intro flushed c; simp [mergerLoopSpec, mergeGo]
  | cons n rest ih =>
    intro flushed c
    by_cases h : n.fileId = c.fileId ∧ n.sourceIn ≤ c.sourceOut + smallGapTolerance
    · have hf : fusable c n = true := (fusable_iff c n).2 h
      simp [mergerLoopSpec, mergeGo, h, hf, ih, fuse]
    · have hf : fusable c n = false :=
        Bool.eq_false_iff.2 (fun h0 => h ((fusable_iff c n).1 h0))
      simp [mergerLoopSpec, mergeGo, h, hf, ih]

/-- Claim C3: the pass-2 adjacency merge of `calculateCuts` fuses the next raw
segment into the current one exactly when they come from the same file and
`next.sourceIn <= current.sourceOut + 2`, extending the out point with max and
appending the text space-joined, and in every other case flushes the current
segment and continues from the next: the code's merge pass coincides with the
merger written from the specification's words, on every input, so segments from
different files or with a gap above the tolerance are never fused. -/
theorem mergeSegments_eq_adjacencyMergerSpec (l : List RawSegment) :
    mergeSegments l = adjacencyMergerSpec l := by
  cases l with
  | nil => rfl
  | cons first rest =>
    simp [mergeSegments, adjacencyMergerSpec, mergerLoopSpec_eq]

theorem mergeGo_head (l : List RawSegment) :
    ∀ c : RawSegment, ∃ m t, mergeGo c l = m :: t ∧
      m.sourceIn = c.sourceIn ∧ m.fileId = c.fileId ∧ m.srtId = c.srtId := by
  induction l with
  | nil => intro c; exact ⟨c, [], rfl, rfl, rfl, rfl⟩
  | cons n rest ih =>
    intro c
    by_cases h : fusable c n = true
    · obtain ⟨m, t, heq, h1, h2, h3⟩ := ih (fuse c n)
      exact ⟨m, t, by simp [mergeGo, h, heq], h1, h2, h3⟩
    · exact ⟨c, mergeGo n rest, by simp [mergeGo, h], rfl, rfl, rfl⟩

theorem mergeGo_chain (l : List RawSegment) :
    ∀ c : RawSegment, List.Chain' (fun a b => fusable a b = false) (mergeGo c l) := by
  induction l with
  | nil => intro c; simp [mergeGo]
  | cons n rest ih =>
    intro c
    by_cases h : fusable c n = true
    · simpa [mergeGo, h] using ih (fuse c n)
    · have hfalse : fusable c n = false := Bool.eq_false_iff.2 h
      obtain ⟨m, t, heq, h1, h2, _⟩ := mergeGo_head rest n
      have hcm : fusable c m = false := by
        have : fusable c m = fusable c n := by
          simp [fusable, h1, h2]
        rw [this, hfalse]
      have hchain := ih n
      rw [heq] at hchain
      have : mergeGo c (n :: rest) = c :: m :: t := by simp [mergeGo, h, heq]
      rw [this]
      exact List.chain'_cons.2 ⟨hcm, hchain⟩

theorem mergeGo_of_chain (l : List RawSegment) :
    ∀ c : RawSegment, List.Chain' (fun a b => fusable a b = false) (c :: l) →
      mergeGo c l = c :: l := by
  induction l with
  | nil => intro c _; rfl
  | cons n rest ih =>
    intro c hch
    have h1 : fusable c n = false := (List.chain'_cons.1 hch).1
    have h2 := (List.chain'_cons.1 hch).2
    simp [mergeGo, h1, ih n h2]

/-- Claim C4: the adjacency-merge pass is idempotent: applied to its own
output it returns that output unchanged, because no pair of consecutive
segments in the output still satisfies the fuse condition. -/
theorem mergeSegments_idempotent (l : List RawSegment) :
    mergeSegments (mergeSegments l) = mergeSegments l := by
  cases l with
  | nil => rfl
  | cons first rest =>
    have hch := mergeGo_chain rest first
    obtain ⟨m, t, heq, _, _, _⟩ := mergeGo_head rest first
    have h1 : mergeSegments (first :: rest) = mergeGo first rest := rfl
    rw [h1, heq]
    rw [heq] at hch
    show mergeGo m t = m :: t
    exact mergeGo_of_chain t m hch

theorem sortIds_congr {sel sel' : List Int} (h : sel.Perm sel') :
    sortIds sel = sortIds sel' :=
  List.eq_of_perm_of_sorted
    ((List.perm_insertionSort _ sel).trans
      (h.trans (List.perm_insertionSort (fun a b => a ≤ b) sel').symm))
    (List.sorted_insertionSort _ sel)
    (List.sorted_insertionSort _ sel')

/-- Claim C5: `calculateCuts` gives the same cut list for the selection in
reverse order as in ascending order, and more generally its result is
invariant under any permutation of the selection list, because the ids are
sorted before processing. -/
theorem calculateCuts_selection_order_invariant (sel : List Int)
    (fullSrt : List SrtEntry) (sd : SequenceData) :
    calculateCuts sel.reverse fullSrt sd = calculateCuts sel fullSrt sd ∧
    ∀ sel' : List Int, sel.Perm sel' →
      calculateCuts sel' fullSrt sd = calculateCuts sel fullSrt sd := by
  constructor
  · unfold calculateCuts rawSegmentsOf
    rw [sortIds_congr (List.reverse_perm sel)]
  · intro sel' h
    unfold calculateCuts rawSegmentsOf
    rw [sortIds_congr h.symm]

theorem calculateCuts_selection_order_invariant_witness :
    calculateCuts [1, 2] [exSrt1] exSeq = calculateCuts [2, 1] [exSrt1] exSeq :=
  (calculateCuts_selection_order_invariant [2, 1] [exSrt1] exSeq).2 [1, 2] (by decide)

theorem materializeSegment_zero_fps {sd : SequenceData} (h : sd.fps = 0)
    (fullSrt : List SrtEntry) (id : Int) :
    materializeSegment sd fullSrt id = none := by
  unfold materializeSegment
  cases hl : srtLookup fullSrt id with
  | none => rfl
  | some srt => simp [timeToFrame, h, mul_zero, sub_self]

def exSeqZero : SequenceData := { exSeq with fps := 0 }

theorem calculateCuts_zero_fps_silent_cex :
    calculateCuts [1] [exSrt1] exSeqZero = [] ∧
    calculateCuts [1] [exSrt1] exSeq ≠ [] := by decide

/-- Claim C6 (amended): on a timeline with zero framerate `calculateCuts`
signals no failure at all: every segment's start and end map to the same frame,
so the raw duration of every segment is zero, every segment is dropped, and the
call silently succeeds with the empty cut list; no division by the framerate
occurs anywhere. -/
theorem calculateCuts_zero_fps_empty (sel : List Int) (fullSrt : List SrtEntry)
    (sd : SequenceData) (h : sd.fps = 0) :
    calculateCuts sel fullSrt sd = [] := by
  have hraw : rawSegmentsOf sel fullSrt sd = [] := by
    unfold rawSegmentsOf
    refine List.filterMap_eq_nil_iff.2 (fun id _ => ?_)
    exact materializeSegment_zero_fps h fullSrt id
  simp [calculateCuts, hraw, mergeSegments, accumulate]

theorem calculateCuts_zero_fps_empty_witness :
    calculateCuts [1] [exSrt1] exSeqZero = [] :=
  calculateCuts_zero_fps_empty [1] [exSrt1] exSeqZero rfl

theorem sortIds_filter (p : Int → Bool) (sel : List Int) :
    sortIds (sel.filter p) = (sortIds sel).filter p :=
  List.eq_of_perm_of_sorted
    ((List.perm_insertionSort _ _).trans
      ((List.perm_insertionSort (fun a b => a ≤ b) sel).symm.filter p))
    (List.sorted_insertionSort _ _)
    ((List.sorted_insertionSort (fun a b => a ≤ b) sel).filter p)

theorem filterMap_filter_of_none {α β : Type} (f : α → Option β) (p : α → Bool)
    (hf : ∀ x, p x = false → f x = none) :
    ∀ l : List α, (l.filter p).filterMap f = l.filterMap f := by
  intro l
  induction l with
  | nil => rfl
  | cons a l ih =>
    by_cases h : p a = true
    · rw [List.filter_cons_of_pos h, List.filterMap_cons, List.filterMap_cons, ih]
    · have h0 : p a = false := Bool.eq_false_iff.2 h
      rw [List.filter_cons_of_neg (by simp [h0]), List.filterMap_cons, hf a h0, ih]

/-- Claim C7: a selected id with no segment in the text-segment set is silently
skipped: the result of `calculateCuts` equals the result on the sublist of the
selection whose ids resolve in the segment map, and a selection resolving no
ids at all yields the empty cut list rather than a failure. -/
theorem calculateCuts_ignores_unknown_ids (sel : List Int)
    (fullSrt : List SrtEntry) (sd : SequenceData) :
    calculateCuts sel fullSrt sd =
      calculateCuts (sel.filter (fun id => (srtLookup fullSrt id).isSome)) fullSrt sd ∧
    ((∀ id ∈ sel, srtLookup fullSrt id = none) → calculateCuts sel fullSrt sd = []) := by
  constructor
  · unfold calculateCuts rawSegmentsOf
    rw [sortIds_filter, filterMap_filter_of_none]
    intro id h
    unfold materializeSegment
    cases hl : srtLookup fullSrt id with
    | none => rfl
    | some s => rw [hl] at h; simp at h
  · intro hall
    have hraw : rawSegmentsOf sel fullSrt sd = [] := by
      unfold rawSegmentsOf
      refine List.filterMap_eq_nil_iff.2 (fun id hid => ?_)
      have hmem : id ∈ sel := (List.perm_insertionSort (fun a b => a ≤ b) sel).mem_iff.1 hid
      unfold materializeSegment
      rw [hall id hmem]
    simp [calculateCuts, hraw, mergeSegments, accumulate]

theorem calculateCuts_ignores_unknown_ids_witness :
    calculateCuts [7, 9] [exSrt1] exSeq =
      calculateCuts ([7, 9].filter (fun id => (srtLookup [exSrt1] id).isSome)) [exSrt1] exSeq ∧
    calculateCuts [7, 9] [exSrt1] exSeq = [] :=
  ⟨(calculateCuts_ignores_unknown_ids [7, 9] [exSrt1] exSeq).1,
   (calculateCuts_ignores_unknown_ids [7, 9] [exSrt1] exSeq).2 (by decide)⟩

theorem findClip_eq_some {clips : List ClipItem} {frame : Int} {c : ClipItem}
    (h : findClip clips frame = some c) :
    c ∈ clips ∧ c.start ≤ frame ∧ frame < c.«end» := by
  unfold findClip at h
  refine ⟨List.mem_of_find?_eq_some h, ?_⟩
  have hp := List.find?_some h
  exact of_decide_eq_true hp

theorem materializeSegment_eq_some {sd : SequenceData} {fullSrt : List SrtEntry}
    {id : Int} {r : RawSegment}
    (h : materializeSegment sd fullSrt id = some r) :
    r.srtId = id ∧ 0 ≤ r.sourceIn ∧ r.sourceIn + 1 ≤ r.sourceOut ∧
    ∃ c ∈ sd.clips,
      findClip sd.clips (timeToFrame (match srtLookup fullSrt id with
        | none => 0 | some srt => srt.startTime) sd.fps) = some c ∧
      (0 ≤ c.«in» → r.sourceOut ≤ c.«in» + (c.«end» - c.start) + paddingHead) := by
  have hP : paddingHead = 5 := rfl
  have hT : paddingTail = 5 := rfl
  unfold materializeSegment at h
  cases hl : srtLookup fullSrt id with
  | none => rw [hl] at h; exact absurd h (by simp)
  | some srt =>
    rw [hl] at h
    simp only at h
    split at h
    · exact absurd h (by simp)
    · rename_i hdur
      cases hc : findClip sd.clips (timeToFrame srt.startTime sd.fps) with
      | none => rw [hc] at h; exact absurd h (by simp)
      | some clip =>
        rw [hc] at h
        simp only at h
        split at h
        · exact absurd h (by simp)
        · rename_i hfd
          obtain ⟨hmem, hcs, hce⟩ := findClip_eq_some hc
          have hr := Option.some.inj h
          subst hr
          refine ⟨rfl, ?_, ?_, clip, hmem, ?_, ?_⟩
          · show (0 : Int) ≤ if _ < 0 then 0 else _
            split <;> omega
          · show (if _ < 0 then (0 : Int) else _) + 1 ≤
              (if _ < 0 then (0 : Int) else _) + _
            omega
          · rfl
          · intro hin
            show (if _ < 0 then (0 : Int) else _) + _ ≤ _
            split <;> omega

theorem rawSegmentsOf_mem {sel : List Int} {fullSrt : List SrtEntry}
    {sd : SequenceData} {r : RawSegment} (hr : r ∈ rawSegmentsOf sel fullSrt sd) :
    materializeSegment sd fullSrt r.srtId = some r := by
  obtain ⟨id, _, hid⟩ := List.mem_filterMap.1 hr
  have hsid := (materializeSegment_eq_some hid).1
  rw [hsid]
  exact hid

theorem pairwise_filterMap_rel {α β : Type} (f : α → Option β) (R : α → α → Prop)
    (S : β → β → Prop)
    (hf : ∀ a b a' b', f a = some a' → f b = some b' → R a b → S a' b') :
    ∀ l : List α, List.Pairwise R l → List.Pairwise S (l.filterMap f) := by
  intro l hl
  induction hl with
  | nil => simp
  | @cons a l ha _ ih =>
    rw [List.filterMap_cons]
    cases hfa : f a with
    | none => exact ih
    | some b =>
      refine List.Pairwise.cons ?_ ih
      intro b' hb'
      obtain ⟨x, hx, hfx⟩ := List.mem_filterMap.1 hb'
      exact hf a x b b' hfa hfx (ha x hx)

theorem rawSegmentsOf_sorted (sel : List Int) (fullSrt : List SrtEntry)
    (sd : SequenceData) :
    List.Pairwise (fun a b : RawSegment => a.srtId ≤ b.srtId)
      (rawSegmentsOf sel fullSrt sd) := by
  refine pairwise_filterMap_rel _ (fun a b : Int => a ≤ b) _ ?_ _ ?_
  · intro a b a' b' ha hb hab
    rw [(materializeSegment_eq_some ha).1, (materializeSegment_eq_some hb).1]
    exact hab
  · exact List.sorted_insertionSort _ sel

theorem mergeGo_preserves (P : RawSegment → Prop)
    (hP : ∀ a b, P a → P b → P (fuse a b)) :
    ∀ (l : List RawSegment) (c : RawSegment), P c → (∀ r ∈ l, P r) →
      ∀ m ∈ mergeGo c l, P m := by
  intro l
  induction l with
  | nil =>
    intro c hc _ m hm
    simp [mergeGo] at hm
    exact hm ▸ hc
  | cons n rest ih =>
    intro c hc hall m hm
    by_cases h : fusable c n = true
    · rw [show mergeGo c (n :: rest) = mergeGo (fuse c n) rest by simp [mergeGo, h]] at hm
      exact ih (fuse c n) (hP c n hc (hall n (by simp)))
        (fun r hr => hall r (by simp [hr])) m hm
    · rw [show mergeGo c (n :: rest) = c :: mergeGo n rest by simp [mergeGo, h]] at hm
      rcases List.mem_cons.1 hm with hm | hm
      · exact hm ▸ hc
      · exact ih n (hall n (by simp)) (fun r hr => hall r (by simp [hr])) m hm

theorem mergeSegments_preserves (P : RawSegment → Prop)
    (hP : ∀ a b, P a → P b → P (fuse a b)) (l : List RawSegment)
    (hl : ∀ r ∈ l, P r) : ∀ m ∈ mergeSegments l, P m := by
  cases l with
  | nil => intro m hm; simp [mergeSegments] at hm
  | cons first rest =>
    intro m hm
    exact mergeGo_preserves P hP rest first (hl first (by simp))
      (fun r hr => hl r (by simp [hr])) m hm

theorem accumulate_head_timelineIn :
    ∀ (l : List RawSegment) (acc : Int) (index : Nat) (cut : EditDecision),
      (accumulate acc index l).head? = some cut → cut.timelineIn = acc := by
  intro l acc index cut h
  cases l with
  | nil => exact absurd h (by simp [accumulate])
  | cons seg rest =>
    have h' := Option.some.inj h
    rw [← h']

theorem accumulate_chain :
    ∀ (l : List RawSegment) (acc : Int) (index : Nat),
      List.Chain' (fun a b : EditDecision => b.timelineIn = a.timelineOut)
        (accumulate acc index l) := by
  intro l
  induction l with
  | nil => intro acc index; simp [accumulate]
  | cons seg rest ih =>
    intro acc index
    refine List.chain'_cons'.2 ⟨?_, ih _ _⟩
    intro y hy
    have h1 := accumulate_head_timelineIn rest
      (acc + (seg.sourceOut - seg.sourceIn)) (index + 1) y hy
    rw [h1]

theorem accumulate_mem :
    ∀ (l : List RawSegment) (acc : Int) (index : Nat) (cut : EditDecision),
      cut ∈ accumulate acc index l →
      ∃ seg ∈ l, cut.srtId = seg.srtId ∧ cut.sourceIn = seg.sourceIn ∧
        cut.sourceOut = seg.sourceOut ∧ cut.trackIndex = seg.trackIndex ∧
        cut.duration = cut.timelineOut - cut.timelineIn ∧
        cut.duration = cut.sourceOut - cut.sourceIn := by
  intro l
  induction l with
  | nil => intro acc index cut h; exact absurd h (by simp [accumulate])
  | cons seg rest ih =>
    intro acc index cut h
    rcases List.mem_cons.1 h with h | h
    · subst h
      refine ⟨seg, by simp, rfl, rfl, rfl, rfl, ?_, rfl⟩
      show seg.sourceOut - seg.sourceIn = acc + (seg.sourceOut - seg.sourceIn) - acc
      omega
    · obtain ⟨s, hs, hrest⟩ := ih _ _ cut h
      exact ⟨s, by simp [hs], hrest⟩

/-- Claim C2: for every produced cut list, the first cut starts at timeline
position 0, each later cut starts exactly where the previous one ends, and
every cut satisfies `duration = timelineOut - timelineIn = sourceOut - sourceIn`
with `duration >= 1`. -/
theorem calculateCuts_timeline_invariants (sel : List Int) (fullSrt : List SrtEntry)
    (sd : SequenceData) :
    (∀ h : calculateCuts sel fullSrt sd ≠ [],
      ((calculateCuts sel fullSrt sd).head h).timelineIn = 0) ∧
    (∀ (i : Nat) (h : i + 1 < (calculateCuts sel fullSrt sd).length),
      ((calculateCuts sel fullSrt sd).get ⟨i + 1, h⟩).timelineIn =
        ((calculateCuts sel fullSrt sd).get ⟨i, Nat.lt_of_succ_lt h⟩).timelineOut) ∧
    (∀ cut ∈ calculateCuts sel fullSrt sd,
      cut.duration = cut.timelineOut - cut.timelineIn ∧
      cut.duration = cut.sourceOut - cut.sourceIn ∧ 1 ≤ cut.duration) := by
  refine ⟨?_, ?_, ?_⟩
  · intro h
    exact accumulate_head_timelineIn _ 0 0 _ (List.head?_eq_head h)
  · intro i h
    have hch := accumulate_chain (mergeSegments (rawSegmentsOf sel fullSrt sd)) 0 0
    exact List.chain'_iff_get.1 hch i (Nat.lt_sub_of_add_lt h)
  · intro cut hcut
    obtain ⟨seg, hseg, _, h2, h3, _, h4, h5⟩ := accumulate_mem _ 0 0 cut hcut
    refine ⟨h4, h5, ?_⟩
    have hQ : ∀ m ∈ mergeSegments (rawSegmentsOf sel fullSrt sd),
        m.sourceIn + 1 ≤ m.sourceOut := by
      refine mergeSegments_preserves _ ?_ _ ?_
      · intro a b ha _
        show (fuse a b).sourceIn + 1 ≤ (fuse a b).sourceOut
        show a.sourceIn + 1 ≤ max a.sourceOut b.sourceOut
        omega
      · intro r hr
        exact (materializeSegment_eq_some (rawSegmentsOf_mem hr)).2.2.1
    have h6 := hQ seg hseg
    omega

def exSeqL : SequenceData :=
  { exSeq with clips := [{ exClip with «end» := 1000, out := 1000 }] }

def exSrtFar : SrtEntry := { id := 5, startTime := 10, endTime := 11, text := "far" }

def exCutsC2 : List EditDecision := calculateCuts [1, 5] [exSrt1, exSrtFar] exSeqL

theorem calculateCuts_timeline_invariants_witness :
    (exCutsC2.head (by decide)).timelineIn = 0 ∧
    (exCutsC2.get ⟨0 + 1, by decide⟩).timelineIn =
      (exCutsC2.get ⟨0, by decide⟩).timelineOut ∧
    ((exCutsC2.headD default).duration =
        (exCutsC2.headD default).timelineOut - (exCutsC2.headD default).timelineIn ∧
      (exCutsC2.headD default).duration =
        (exCutsC2.headD default).sourceOut - (exCutsC2.headD default).sourceIn ∧
      1 ≤ (exCutsC2.headD default).duration) :=
  ⟨(calculateCuts_timeline_invariants [1, 5] [exSrt1, exSrtFar] exSeqL).1 (by decide),
   (calculateCuts_timeline_invariants [1, 5] [exSrt1, exSrtFar] exSeqL).2.1 0 (by decide),
   (calculateCuts_timeline_invariants [1, 5] [exSrt1, exSrtFar] exSeqL).2.2
      (exCutsC2.headD default) (by decide)⟩

def exCutC1 : EditDecision := (calculateCuts [1] [exSrt1] exSeq).headD default

/-- Claim C1 (counterexample): at a timeline whose single clip satisfies the
claim's hypotheses (`0 <= in`, `0 <= out`, `start < end`, even a one-to-one
source mapping), the cut produced for a segment starting at the head of the
clip has `sourceOut = 105` while the owning clip's `out` is `100`: the
head-padding allowance added to the duration clamp lets `sourceOut` pass the
clip's addressable upper bound. -/
theorem calculateCuts_owner_out_bound_cex :
    (∀ c ∈ exSeq.clips, 0 ≤ c.«in» ∧ 0 ≤ c.out ∧ c.start < c.«end») ∧
    ¬ (∀ cut ∈ calculateCuts [1] [exSrt1] exSeq,
        0 ≤ cut.sourceIn ∧ withinOwnerBound [exSrt1] exSeq cut = true) := by
  decide

/-- Claim C1 (amended): for every cut, `sourceIn >= 0` always holds, and
`sourceOut` is bounded not by the owning clip's `out` but by
`clip.in + (clip.end - clip.start) + paddingHead` for some clip of the
timeline (the owning clip of one of the cut's fused segments), provided every
clip has a non-negative `in` point. -/
theorem calculateCuts_sourceIn_nonneg_sourceOut_bounded (sel : List Int)
    (fullSrt : List SrtEntry) (sd : SequenceData)
    (hin : ∀ c ∈ sd.clips, 0 ≤ c.«in») :
    ∀ cut ∈ calculateCuts sel fullSrt sd,
      0 ≤ cut.sourceIn ∧
      ∃ c ∈ sd.clips, cut.sourceOut ≤ c.«in» + (c.«end» - c.start) + paddingHead := by
  intro cut hcut
  obtain ⟨seg, hseg, _, h2, h3, _, _, _⟩ := accumulate_mem _ 0 0 cut hcut
  have hQ : ∀ m ∈ mergeSegments (rawSegmentsOf sel fullSrt sd),
      0 ≤ m.sourceIn ∧
      ∃ c ∈ sd.clips, m.sourceOut ≤ c.«in» + (c.«end» - c.start) + paddingHead := by
    refine mergeSegments_preserves _ ?_ _ ?_
    · rintro a b ⟨ha1, c1, hc1, ha2⟩ ⟨_, c2, hc2, hb2⟩
      refine ⟨ha1, ?_⟩
      rcases max_choice a.sourceOut b.sourceOut with hmx | hmx
      · refine ⟨c1, hc1, ?_⟩
        show max a.sourceOut b.sourceOut ≤ _
        rw [hmx]; exact ha2
      · refine ⟨c2, hc2, ?_⟩
        show max a.sourceOut b.sourceOut ≤ _
        rw [hmx]; exact hb2
    · intro r hr
      obtain ⟨_, hpos, _, c, hcmem, _, hbound⟩ :=
        materializeSegment_eq_some (rawSegmentsOf_mem hr)
      exact ⟨hpos, c, hcmem, hbound (hin c hcmem)⟩
  obtain ⟨hpos, c, hcmem, hb⟩ := hQ seg hseg
  refine ⟨by rw [h2]; exact hpos, c, hcmem, by rw [h3]; exact hb⟩

theorem calculateCuts_sourceIn_nonneg_sourceOut_bounded_witness :
    0 ≤ exCutC1.sourceIn ∧
    ∃ c ∈ exSeq.clips,
      exCutC1.sourceOut ≤ c.«in» + (c.«end» - c.start) + paddingHead :=
  calculateCuts_sourceIn_nonneg_sourceOut_bounded [1] [exSrt1] exSeq (by decide)
    exCutC1 (by decide)

theorem materializeSegment_of_no_clip {sd : SequenceData} {fullSrt : List SrtEntry}
    {id : Int} {s : SrtEntry} (hl : srtLookup fullSrt id = some s)
    (hc : findClip sd.clips (timeToFrame s.startTime sd.fps) = none) :
    materializeSegment sd fullSrt id = none := by
  unfold materializeSegment
  rw [hl]
  simp only [hc]
  split <;> rfl

theorem list_get_congr {α : Type} {l l' : List α} (h : l = l') (i : Nat)
    (hi : i < l.length) : l.get ⟨i, hi⟩ = l'.get ⟨i, h ▸ hi⟩ := by
  subst h; rfl

theorem previewRows_length (fps : Rat) (clips : List ClipItem) :
    ∀ (l : List SrtEntry) (index : Nat),
      (previewRows fps clips index l).length = l.length := by
  intro l
  induction l with
  | nil => intro index; rfl
  | cons a l ih => intro index; simp [previewRows, ih]

theorem previewRows_get (fps : Rat) (clips : List ClipItem) :
    ∀ (l : List SrtEntry) (index i : Nat) (h : i < l.length)
      (h2 : i < (previewRows fps clips index l).length),
      (previewRows fps clips index l).get ⟨i, h2⟩ =
        previewRow fps clips (index + i) (l.get ⟨i, h⟩) := by
  intro l
  induction l with
  | nil => intro index i h h2; exact absurd h (by simp)
  | cons a l ih =>
    intro index i h h2
    cases i with
    | zero => rfl
    | succ i =>
      have h' : i < l.length := Nat.lt_of_succ_lt_succ h
      have h2' : i < (previewRows fps clips (index + 1) l).length := by
        rw [previewRows_length]; exact h'
      calc (previewRows fps clips index (a :: l)).get ⟨i + 1, h2⟩
          = (previewRows fps clips (index + 1) l).get ⟨i, h2'⟩ := rfl
        _ = previewRow fps clips (index + 1 + i) (l.get ⟨i, h'⟩) :=
            ih (index + 1) i h' h2'
        _ = previewRow fps clips (index + (i + 1)) ((a :: l).get ⟨i + 1, h⟩) := by
            rw [show index + 1 + i = index + (i + 1) from by omega]
            rfl

theorem previewRow_srtId (fps : Rat) (clips : List ClipItem) (index : Nat)
    (srt : SrtEntry) : (previewRow fps clips index srt).srtId = srt.id := by
  simp only [previewRow]
  split <;> rfl

theorem previewRow_gap {fps : Rat} {clips : List ClipItem} {srt : SrtEntry}
    (index : Nat) (hc : findClip clips (timeToFrame srt.startTime fps) = none) :
    (previewRow fps clips index srt).sourceIn = -1 ∧
    (previewRow fps clips index srt).sourceOut = -1 ∧
    (previewRow fps clips index srt).trackIndex = 0 := by
  simp [previewRow, hc]

theorem generateSourcePreview_eq_rows (sd : SequenceData) {srtData : List SrtEntry}
    (h : srtData ≠ []) :
    generateSourcePreview sd srtData = previewRows sd.fps sd.clips 0 srtData := by
  unfold generateSourcePreview
  rw [if_neg (by simp [List.isEmpty_iff, h])]

/-- Claim C8 (counterexample): with an empty subtitle list and one physical
clip, `generateSourcePreview` runs its clip-listing mode and emits one row
while there are zero input text segments, so the preview does not always emit
exactly one row per input text segment. -/
theorem preview_row_count_cex :
    (generateSourcePreview exSeq []).length ≠ ([] : List SrtEntry).length := by
  decide

/-- Claim C8 (amended): a selected segment whose start frame is covered by no
clip never contributes a cut (no cut of `calculateCuts` carries its id), while
`generateSourcePreview` does not drop it but emits a sentinel row with
`sourceIn = -1`, `sourceOut = -1` and `trackIndex = 0`; whenever the
text-segment list is nonempty the preview emits exactly one row per input
segment in input order (with an empty segment list it lists physical clips
instead). -/
theorem gap_segments_dropped_and_preview_sentinel :
    (∀ (sel : List Int) (fullSrt : List SrtEntry) (sd : SequenceData) (id : Int)
        (s : SrtEntry), srtLookup fullSrt id = some s →
      findClip sd.clips (timeToFrame s.startTime sd.fps) = none →
      ∀ cut ∈ calculateCuts sel fullSrt sd, cut.srtId ≠ id) ∧
    (∀ (sd : SequenceData) (srtData : List SrtEntry), srtData ≠ [] →
      (generateSourcePreview sd srtData).length = srtData.length ∧
      ∀ (i : Nat) (hs : i < srtData.length)
        (hp : i < (generateSourcePreview sd srtData).length),
        ((generateSourcePreview sd srtData).get ⟨i, hp⟩).srtId =
          (srtData.get ⟨i, hs⟩).id ∧
        (findClip sd.clips (timeToFrame (srtData.get ⟨i, hs⟩).startTime sd.fps) =
            none →
          ((generateSourcePreview sd srtData).get ⟨i, hp⟩).sourceIn = -1 ∧
          ((generateSourcePreview sd srtData).get ⟨i, hp⟩).sourceOut = -1 ∧
          ((generateSourcePreview sd srtData).get ⟨i, hp⟩).trackIndex = 0)) := by
  constructor
  · intro sel fullSrt sd id s hl hc cut hcut hbad
    obtain ⟨seg, hseg, h1, _⟩ := accumulate_mem _ 0 0 cut hcut
    have hQ : ∀ m ∈ mergeSegments (rawSegmentsOf sel fullSrt sd),
        ∃ r ∈ rawSegmentsOf sel fullSrt sd, m.srtId = r.srtId := by
      refine mergeSegments_preserves _ ?_ _ ?_
      · rintro a b ⟨r, hr, ha⟩ _
        exact ⟨r, hr, ha⟩
      · exact fun r hr => ⟨r, hr, rfl⟩
    obtain ⟨r, hr, h2⟩ := hQ seg hseg
    have hmat := rawSegmentsOf_mem hr
    have hrid : r.srtId = id := by rw [← h2, ← h1, hbad]
    rw [hrid, materializeSegment_of_no_clip hl hc] at hmat
    exact absurd hmat (by simp)
  · intro sd srtData hne
    have hrw := generateSourcePreview_eq_rows sd hne
    constructor
    · rw [hrw, previewRows_length]
    · intro i hs hp
      have hget : (generateSourcePreview sd srtData).get ⟨i, hp⟩ =
          previewRow sd.fps sd.clips (0 + i) (srtData.get ⟨i, hs⟩) := by
        rw [list_get_congr hrw i hp]
        exact previewRows_get sd.fps sd.clips srtData 0 i hs (hrw ▸ hp)
      rw [hget]
      refine ⟨previewRow_srtId _ _ _ _, fun hcnone => previewRow_gap _ hcnone⟩

def exSrtGap : SrtEntry := { id := 3, startTime := 200, endTime := 201, text := "gap" }

def exSrts8 : List SrtEntry := [exSrt1, exSrtGap]

def exCutC8 : EditDecision := (calculateCuts [1, 3] exSrts8 exSeq).headD default

theorem gap_segments_dropped_and_preview_sentinel_witness :
    exCutC8.srtId ≠ 3 ∧
    (generateSourcePreview exSeq exSrts8).length = exSrts8.length ∧
    (((generateSourcePreview exSeq exSrts8).get ⟨1, by decide⟩).sourceIn = -1 ∧
     ((generateSourcePreview exSeq exSrts8).get ⟨1, by decide⟩).sourceOut = -1 ∧
     ((generateSourcePreview exSeq exSrts8).get ⟨1, by decide⟩).trackIndex = 0) :=
  ⟨gap_segments_dropped_and_preview_sentinel.1 [1, 3] exSrts8 exSeq 3 exSrtGap
      (by decide) (by decide) exCutC8 (by decide),
   (gap_segments_dropped_and_preview_sentinel.2 exSeq exSrts8 (by decide)).1,
   ((gap_segments_dropped_and_preview_sentinel.2 exSeq exSrts8 (by decide)).2 1
      (by decide) (by decide)).2 (by decide)⟩

def exClipT1 : ClipItem := { exClip with id := "t1", name := "T1", trackIndex := 1 }

def exClipT2 : ClipItem := { exClip with id := "t2", name := "T2", trackIndex := 2 }

def exSeqC9 : SequenceData := { exSeq with clips := [exClipT2, exClipT1] }

/-- Claim C9 (counterexample): at frame 0, both clips of the timeline match,
one on track 2 listed first and one on track 1 listed second; both
`calculateCuts` and `generateSourcePreview` emit the clip with track index 2,
not the matching clip with the smallest track index. -/
theorem lowest_track_wins_cex :
    (calculateCuts [1] [exSrt1] exSeqC9).map (fun cut => cut.trackIndex) = [2] ∧
    (generateSourcePreview exSeqC9 [exSrt1]).map (fun row => row.trackIndex) = [2] ∧
    exClipT1 ∈ exSeqC9.clips ∧ exClipT1.trackIndex = 1 ∧
    exClipT1.start ≤ timeToFrame exSrt1.startTime exSeqC9.fps ∧
    timeToFrame exSrt1.startTime exSeqC9.fps < exClipT1.«end» := by decide

/-- Claim C9 (amended): clip lookup in both `calculateCuts` and
`generateSourcePreview` is the shared `findClip`, which deterministically
returns the first clip in clip-list order whose span contains the frame; the
chosen clip has the smallest track index among the matching clips only under
the extra hypothesis that the clip list is ordered by ascending track index. -/
theorem findClip_first_match_min_track :
    ∀ (clips : List ClipItem) (frame : Int) (c : ClipItem),
      findClip clips frame = some c →
      (c ∈ clips ∧ c.start ≤ frame ∧ frame < c.«end») ∧
      (List.Pairwise (fun a b : ClipItem => a.trackIndex ≤ b.trackIndex) clips →
        ∀ c' ∈ clips, c'.start ≤ frame → frame < c'.«end» →
          c.trackIndex ≤ c'.trackIndex) := by
  intro clips
  induction clips with
  | nil => intro frame c h; exact absurd h (by simp [findClip])
  | cons a l ih =>
    intro frame c h
    by_cases ha : a.start ≤ frame ∧ frame < a.«end»
    · have hpa : (fun c : ClipItem => decide (c.start ≤ frame ∧ frame < c.«end»)) a = true :=
        decide_eq_true ha
      have hfind : findClip (a :: l) frame = some a := by
        unfold findClip
        exact List.find?_cons_of_pos l hpa
      have hca : c = a := Option.some.inj (h.symm.trans hfind)
      subst hca
      refine ⟨⟨by simp, ha.1, ha.2⟩, ?_⟩
      intro hpw c' hc' _ _
      rcases List.mem_cons.1 hc' with rfl | hc'
      · exact le_refl _
      · exact (List.pairwise_cons.1 hpw).1 c' hc'
    · have hpa : ¬ (fun c : ClipItem => decide (c.start ≤ frame ∧ frame < c.«end»)) a = true := by
        simpa using ha
      have hfind : findClip (a :: l) frame = findClip l frame := by
        unfold findClip
        exact List.find?_cons_of_neg l hpa
      rw [hfind] at h
      obtain ⟨⟨hmem, hb1, hb2⟩, hmin⟩ := ih frame c h
      refine ⟨⟨by simp [hmem], hb1, hb2⟩, ?_⟩
      intro hpw c' hc' h1 h2
      rcases List.mem_cons.1 hc' with rfl | hc'
      · exact absurd ⟨h1, h2⟩ ha
      · exact hmin (List.pairwise_cons.1 hpw).2 c' hc' h1 h2

def exSeqC9s : SequenceData := { exSeq with clips := [exClipT1, exClipT2] }

theorem findClip_first_match_min_track_witness :
    (exClipT1 ∈ exSeqC9s.clips ∧ exClipT1.start ≤ 0 ∧ (0 : Int) < exClipT1.«end») ∧
    exClipT1.trackIndex ≤ exClipT2.trackIndex :=
  ⟨(findClip_first_match_min_track exSeqC9s.clips 0 exClipT1 (by decide)).1,
   (findClip_first_match_min_track exSeqC9s.clips 0 exClipT1 (by decide)).2
      (by decide) exClipT2 (by decide) (by decide) (by decide)⟩

theorem mergeGoIds_fst :
    ∀ (l : List RawSegment) (c : RawSegment) (ids : List Int),
      (mergeGoIds c ids l).map Prod.fst = mergeGo c l := by
  intro l
  induction l with
  | nil => intro c ids; rfl
  | cons n rest ih =>
    intro c ids
    by_cases h : fusable c n = true
    · simp [mergeGoIds, mergeGo, h, ih]
    · simp [mergeGoIds, mergeGo, h, ih]

theorem mergeGoIds_good :
    ∀ (l : List RawSegment) (c : RawSegment) (ids : List Int),
      ids.head? = some c.srtId → (∀ j ∈ ids, c.srtId ≤ j) →
      (∀ r ∈ l, c.srtId ≤ r.srtId) →
      List.Pairwise (fun a b : RawSegment => a.srtId ≤ b.srtId) l →
      ∀ p ∈ mergeGoIds c ids l,
        p.2.head? = some p.1.srtId ∧ ∀ j ∈ p.2, p.1.srtId ≤ j := by
  intro l
  induction l with
  | nil =>
    intro c ids hh hall _ _ p hp
    simp [mergeGoIds] at hp
    exact hp ▸ ⟨hh, hall⟩
  | cons n rest ih =>
    intro c ids hh hall hle hpw p hp
    by_cases h : fusable c n = true
    · rw [show mergeGoIds c ids (n :: rest) =
          mergeGoIds (fuse c n) (ids ++ [n.srtId]) rest by simp [mergeGoIds, h]] at hp
      refine ih (fuse c n) (ids ++ [n.srtId]) ?_ ?_ ?_ ?_ p hp
      · cases ids with
        | nil => exact absurd hh (by simp)
        | cons x t => exact hh
      · intro j hj
        rcases List.mem_append.1 hj with hj | hj
        · exact hall j hj
        · rw [show j = n.srtId by simpa using hj]
          exact hle n (by simp)
      · intro r hr
        exact hle r (by simp [hr])
      · exact (List.pairwise_cons.1 hpw).2
    · rw [show mergeGoIds c ids (n :: rest) =
          (c, ids) :: mergeGoIds n [n.srtId] rest by simp [mergeGoIds, h]] at hp
      rcases List.mem_cons.1 hp with hp | hp
      · exact hp ▸ ⟨hh, hall⟩
      · refine ih n [n.srtId] rfl ?_ ?_ ?_ p hp
        · intro j hj
          rw [show j = n.srtId by simpa using hj]
        · exact (List.pairwise_cons.1 hpw).1
        · exact (List.pairwise_cons.1 hpw).2

/-- Claim C10: tracking, for every merged segment of pass 2, the ids of the raw
segments fused into it (`mergeRuns` projects onto the merge pass itself), the
resulting segment's `srtId` — which pass 3 copies into the cut — is the id of
the chronologically first fused raw segment and is the smallest id among them,
because fusing never overwrites the running segment's `srtId` and pass-1 output
is sorted by id. -/
theorem merged_srtId_first_and_min (sel : List Int) (fullSrt : List SrtEntry)
    (sd : SequenceData) :
    (mergeRuns (rawSegmentsOf sel fullSrt sd)).map Prod.fst =
      mergeSegments (rawSegmentsOf sel fullSrt sd) ∧
    ∀ p ∈ mergeRuns (rawSegmentsOf sel fullSrt sd),
      p.2.head? = some p.1.srtId ∧ ∀ j ∈ p.2, p.1.srtId ≤ j := by
  have hpw := rawSegmentsOf_sorted sel fullSrt sd
  cases hL : rawSegmentsOf sel fullSrt sd with
  | nil => exact ⟨rfl, by simp [mergeRuns]⟩
  | cons first rest =>
    rw [hL] at hpw
    constructor
    · exact mergeGoIds_fst rest first [first.srtId]
    · intro p hp
      exact mergeGoIds_good rest first [first.srtId] rfl (by simp)
        (List.pairwise_cons.1 hpw).1 (List.pairwise_cons.1 hpw).2 p hp

def exSrt2 : SrtEntry := { id := 2, startTime := 26/25, endTime := 2, text := "world" }

def exRunC10 : RawSegment × List Int :=
  (mergeRuns (rawSegmentsOf [1, 2] [exSrt1, exSrt2] exSeqL)).headD default

theorem merged_srtId_first_and_min_witness :
    exRunC10.2.head? = some exRunC10.1.srtId ∧
    ∀ j ∈ exRunC10.2, exRunC10.1.srtId ≤ j :=
  (merged_srtId_first_and_min [1, 2] [exSrt1, exSrt2] exSeqL).2 exRunC10 (by decide)
